import Mathlib

/-!
Verification development for the nemo backtesting engine.

Shallow embedding conventions:
* `Price` (C++ `double`) is modelled as `ℚ`: every claim under study uses
  prices only through exact arithmetic and order comparisons.
* `Volume`, `OrderId` (C++ `uint64_t`) are modelled as `Nat`; where the C++
  performs wrapping 64-bit arithmetic we take the result `% 2^64` explicitly.
* `Timestamp` (a `std::chrono::time_point` over a signed 64-bit count of
  nanoseconds) and `Duration` are modelled as `Int`.
* `StrategyId`, `InstrumentId`, `ExchangeId` (`std::string`) are `String`.
* `std::map<Price, BookLevel, std::greater<Price>>` (the bid side) is a
  strictly descending association list, `std::map<Price, BookLevel>` (the ask
  side) a strictly ascending one; `std::unordered_map` used purely through
  lookup/update is modelled as a total function with the value type's
  default for absent keys (`operator[]` inserts exactly that default).
* `std::priority_queue` is embedded by the array heap algorithms
  (`__push_heap`, `__adjust_heap`) shared by the GNU libstdc++ and MSVC
  standard libraries the project builds against, over a `List` viewed as the
  underlying array.  Scheduled callbacks are opaque and identified by a
  numeric tag.
-/

namespace Backtest

/-! ## utils/types.h -/

inductive Side : Type where
  | BUY : Side
  | SELL : Side
deriving DecidableEq, Repr

inductive OrderType : Type where
  | MARKET : OrderType
  | LIMIT : OrderType
  | STOP : OrderType
  | STOP_LIMIT : OrderType
deriving DecidableEq, Repr

/-- Embeds `struct Order` (utils/types.h).  The `status` enum field is omitted:
no operation studied here reads or writes it. -/
structure Order : Type where
  id : Nat
  timestamp : Int
  instrument : String
  strategy : String
  side : Side
  type : OrderType
  price : ℚ
  quantity : Nat
  filled_quantity : Nat := 0
  stop_price : Option ℚ := none
deriving DecidableEq

/-- Embeds `struct Fill` (utils/types.h). -/
structure Fill : Type where
  order_id : Nat
  timestamp : Int
  instrument : String
  strategy : String
  side : Side
  price : ℚ
  quantity : Nat
  commission : ℚ := 0
deriving DecidableEq

/-- Embeds `struct Position` (utils/types.h).  `quantity` has C++ type
`Volume = uint64_t` ("Positive for long, negative for short"): we model the
stored unsigned 64-bit value as a `Nat` below `2^64`, updated with wrapping
arithmetic exactly as `+=`/`-=` behave on `uint64_t`. -/
structure Position : Type where
  instrument : String := ""
  strategy : String := ""
  quantity : Nat := 0
  average_price : ℚ := 0
  unrealized_pnl : ℚ := 0
  realized_pnl : ℚ := 0
deriving DecidableEq

/-- Embeds `struct MarketDataTick` (utils/types.h). -/
structure MarketDataTick : Type where
  timestamp : Int
  instrument : String
  bid_price : ℚ := 0
  ask_price : ℚ := 0
  bid_size : Nat := 0
  ask_size : Nat := 0
  last_price : ℚ := 0
  volume : Nat := 0
  -- the C++ field is named `open`, a Lean keyword
  open_ : ℚ := 0
  high : ℚ := 0
  low : ℚ := 0
  close : ℚ := 0
  date : String := ""
deriving DecidableEq

/-- The modulus of C++ `uint64_t` arithmetic, 2^64. -/
def U64 : Nat := 18446744073709551616

/-! ## execution/order_book.h -/

/-- Embeds `struct BookLevel`.  The `price` field is kept although the containing
maps key levels by price: `bids_[p]` / `asks_[p]` default-construct the
level, so the field always holds the default-constructor value `0`. -/
structure BookLevel : Type where
  price : ℚ := 0
  total_volume : Nat := 0
  orders : List (Nat × Nat) := []
deriving DecidableEq

/-- Embeds `BookLevel::add_order`. -/
def BookLevel.add_order (lvl : BookLevel) (id : Nat) (volume : Nat) : BookLevel :=
  { lvl with orders := lvl.orders ++ [(id, volume)],
             total_volume := lvl.total_volume + volume }

/-- Embeds `BookLevel::remove_order` ("Simplified" per its own comment: only the
cached total is decremented, clamped at zero; the FIFO queue and the order
id are not consulted).  `Nat` subtraction clamps at zero exactly like the
`if (total_volume >= volume)` branch pair. -/
def BookLevel.remove_order (lvl : BookLevel) (volume : Nat) : BookLevel :=
  { lvl with total_volume := lvl.total_volume - volume }

/-- Sum of the remaining quantities of a level's FIFO entries. -/
def BookLevel.fifo_sum (lvl : BookLevel) : Nat :=
  (lvl.orders.map Prod.snd).sum

/-- Embeds `std::map` insertion-or-update used by `OrderBook::add_order`:
`sortsBefore` is the map's comparator; list kept sorted by it. -/
def mapAddOrder (sortsBefore : ℚ → ℚ → Bool) :
    List (ℚ × BookLevel) → ℚ → Nat → Nat → List (ℚ × BookLevel)
  | [], p, id, q => [(p, BookLevel.add_order {} id q)]
  | (k, lvl) :: rest, p, id, q =>
    if sortsBefore p k then (p, BookLevel.add_order {} id q) :: (k, lvl) :: rest
    else if p = k then (k, lvl.add_order id q) :: rest
    else (k, lvl) :: mapAddOrder sortsBefore rest p id q

/-- Embeds `std::map::find` + conditional erase used by `OrderBook::remove_order`. -/
def mapRemoveOrder : List (ℚ × BookLevel) → ℚ → Nat → List (ℚ × BookLevel)
  | [], _, _ => []
  | (k, lvl) :: rest, p, q =>
    if p = k then
      let lvl' := lvl.remove_order q
      if lvl'.total_volume = 0 then rest else (k, lvl') :: rest
    else (k, lvl) :: mapRemoveOrder rest p q

/-- The common matching sweep of `execute_market_order` /
`execute_limit_order`: walk the levels in iteration order while quantity
remains and `cross` holds at the level price (for market orders `cross` is
constantly true: the C++ loop condition has no price test).  Each step fills
`min(remaining, total_volume)` at the level price; a level whose cached
volume reaches zero is erased, otherwise it is kept with the decremented
volume (its FIFO queue untouched) and the loop continues.  Returns
(fills, levels after, remaining quantity). -/
def sweepLevels (mk : ℚ → Nat → Fill) (cross : ℚ → Bool) :
    List (ℚ × BookLevel) → Nat → List Fill × List (ℚ × BookLevel) × Nat
  | [], r => ([], [], r)
  | (p, lvl) :: rest, r =>
    if r = 0 ∨ cross p = false then ([], (p, lvl) :: rest, r)
    else
      let q := min r lvl.total_volume
      let tv' := lvl.total_volume - q
      if tv' = 0 then
        let res := sweepLevels mk cross rest (r - q)
        (mk p q :: res.1, res.2.1, res.2.2)
      else
        let res := sweepLevels mk cross rest (r - q)
        (mk p q :: res.1, (p, { lvl with total_volume := tv' }) :: res.2.1, res.2.2)

/-- Embeds `class OrderBook`: `bids_` is `std::map<Price, BookLevel,
std::greater<Price>>`, i.e. an association list strictly DESCENDING in
price (its `begin()` is the highest price, its `rbegin()` the lowest);
`asks_` is ascending.  The `matching_algo_` member is omitted: it is never
read by any of the operations studied. -/
structure OrderBook : Type where
  instrument : String
  bids : List (ℚ × BookLevel) := []
  asks : List (ℚ × BookLevel) := []
deriving DecidableEq

/-- Embeds `OrderBook::add_order`.  Bids are inserted by the `std::greater`
comparator (descending), asks by `std::less` (ascending). -/
def OrderBook.add_order (book : OrderBook) (o : Order) : OrderBook :=
  match o.side with
  | Side.BUY =>
    { book with bids := mapAddOrder (fun a b => decide (b < a)) book.bids o.price o.id o.quantity }
  | Side.SELL =>
    { book with asks := mapAddOrder (fun a b => decide (a < b)) book.asks o.price o.id o.quantity }

/-- Embeds `OrderBook::remove_order`.  The order id argument is accepted and
ignored, as in `BookLevel::remove_order`. -/
def OrderBook.remove_order (book : OrderBook) (_order_id : Nat) (side : Side)
    (price : ℚ) (quantity : Nat) : OrderBook :=
  match side with
  | Side.BUY => { book with bids := mapRemoveOrder book.bids price quantity }
  | Side.SELL => { book with asks := mapRemoveOrder book.asks price quantity }

/-- Embeds `OrderBook::execute_market_order`.  A BUY walks `asks_` from `begin()`
(lowest ask upward).  A SELL walks `bids_` from `rbegin()` to `rend()`:
on the `std::greater`-ordered map this runs from the LOWEST bid upward,
which we express by sweeping the reversed bid list and reversing back
(the erase-and-reset-`rbegin()` dance in the C++ is equivalent to
continuing with the next element of that reversed walk). -/
def OrderBook.execute_market_order (book : OrderBook) (o : Order) (ts : Int) :
    List Fill × OrderBook :=
  let mk : ℚ → Nat → Fill :=
    fun p q => { order_id := o.id, timestamp := ts, instrument := book.instrument,
                 strategy := o.strategy, side := o.side, price := p, quantity := q }
  match o.side with
  | Side.BUY =>
    let res := sweepLevels mk (fun _ => true) book.asks o.quantity
    (res.1, { book with asks := res.2.1 })
  | Side.SELL =>
    let res := sweepLevels mk (fun _ => true) book.bids.reverse o.quantity
    (res.1, { book with bids := res.2.1.reverse })

/-- Embeds `OrderBook::execute_limit_order`: same sweeps restricted by the limit
price (`it->first <= order.price` for a buy; `it->first >= order.price`
for the sell-side walk, which again starts from `rbegin()`, i.e. the
lowest bid).  Any remaining quantity is added to the order's own side. -/
def OrderBook.execute_limit_order (book : OrderBook) (o : Order) (ts : Int) :
    List Fill × OrderBook :=
  let mk : ℚ → Nat → Fill :=
    fun p q => { order_id := o.id, timestamp := ts, instrument := book.instrument,
                 strategy := o.strategy, side := o.side, price := p, quantity := q }
  match o.side with
  | Side.BUY =>
    let res := sweepLevels mk (fun p => decide (p ≤ o.price)) book.asks o.quantity
    let b1 : OrderBook := { book with asks := res.2.1 }
    if res.2.2 > 0 then (res.1, b1.add_order { o with quantity := res.2.2 })
    else (res.1, b1)
  | Side.SELL =>
    let res := sweepLevels mk (fun p => decide (p ≥ o.price)) book.bids.reverse o.quantity
    let b1 : OrderBook := { book with bids := res.2.1.reverse }
    if res.2.2 > 0 then (res.1, b1.add_order { o with quantity := res.2.2 })
    else (res.1, b1)

/-- Embeds `OrderBook::best_bid`: `bids_.rbegin()->first`, the LAST element in the
descending iteration order of `bids_`, i.e. the lowest resting bid price. -/
def OrderBook.best_bid (book : OrderBook) : Option ℚ :=
  book.bids.getLast?.map Prod.fst

/-- Embeds `OrderBook::best_ask`: `asks_.begin()->first`, the lowest ask price. -/
def OrderBook.best_ask (book : OrderBook) : Option ℚ :=
  book.asks.head?.map Prod.fst

/-- Every level resident in a side has strictly positive cached volume. -/
def levelsPositive (ls : List (ℚ × BookLevel)) : Prop :=
  ∀ e ∈ ls, 0 < e.2.total_volume

instance (ls : List (ℚ × BookLevel)) : Decidable (levelsPositive ls) :=
  inferInstanceAs (Decidable (∀ e ∈ ls, 0 < e.2.total_volume))

/-- Both sides of the book have only positive-volume levels. -/
def OrderBook.positive (book : OrderBook) : Prop :=
  levelsPositive book.bids ∧ levelsPositive book.asks

instance (book : OrderBook) : Decidable book.positive :=
  inferInstanceAs (Decidable (levelsPositive book.bids ∧ levelsPositive book.asks))

/-- Every resident level's cached volume equals the sum of its FIFO
entries (the spec's level invariant). -/
def levelsFifoConsistent (ls : List (ℚ × BookLevel)) : Prop :=
  ∀ e ∈ ls, e.2.total_volume = e.2.fifo_sum

instance (ls : List (ℚ × BookLevel)) : Decidable (levelsFifoConsistent ls) :=
  inferInstanceAs (Decidable (∀ e ∈ ls, e.2.total_volume = e.2.fifo_sum))

/-! ## execution/cost_model.h -/

/-- Embeds `struct CommissionStructure`. -/
structure CommissionStructure : Type where
  maker_fee_rate : ℚ := 0
  taker_fee_rate : ℚ := 1 / 1000
  fixed_fee : ℚ := 0
  min_commission : ℚ := 0
  max_commission : ℚ := 1000000
deriving DecidableEq

/-- Embeds `std::clamp(v, lo, hi)`: `v < lo ? lo : hi < v ? hi : v`. -/
def stdClamp (v lo hi : ℚ) : ℚ :=
  if v < lo then lo else if hi < v then hi else v

/-- Embeds `CommissionStructure::calculate_commission`. -/
def CommissionStructure.calculate_commission (cs : CommissionStructure)
    (quantity : Nat) (price : ℚ) (is_maker : Bool) : ℚ :=
  let rate := if is_maker then cs.maker_fee_rate else cs.taker_fee_rate
  let commission := quantity * price * rate + cs.fixed_fee
  stdClamp commission cs.min_commission cs.max_commission

/-- Embeds `LinearSlippageModel::calculate_slippage`.  The `instrument` and `side`
parameters are accepted and ignored, as in the C++.  Note the early return
for `avg_daily_volume == 0` yields `base_rate_ * reference_price` without
negation or absolute value. -/
def LinearSlippageModel.calculate_slippage (base_rate impact_rate : ℚ)
    (_instrument : String) (_side : Side) (quantity : Nat)
    (reference_price : ℚ) (avg_daily_volume : Nat) : ℚ :=
  if avg_daily_volume = 0 then base_rate * reference_price
  else
    let volume_ratio : ℚ := (quantity : ℚ) / (avg_daily_volume : ℚ)
    let slippage_rate := base_rate + impact_rate * volume_ratio
    Neg.neg (abs (slippage_rate * reference_price))

/-- Embeds `struct TransactionCost` (constructor computes the total). -/
structure TransactionCost : Type where
  commission : ℚ := 0
  slippage : ℚ := 0
  total_cost : ℚ := 0
deriving DecidableEq

/-- The two-argument `TransactionCost` constructor. -/
def TransactionCost.mk2 (comm slip : ℚ) : TransactionCost :=
  { commission := comm, slippage := slip, total_cost := comm + slip }

/-- Embeds `class CostModel`.  The two commission maps and the average-daily-volume
map are association lists (only `find` / assignment are used on them); the
polymorphic `slippage_model_` pointer is an optional abstract slippage
function (the `CostModel` constructor installs a `LinearSlippageModel`, so
in real states it is never `none`). -/
structure CostModel : Type where
  commission_structures : List (String × CommissionStructure) := []
  instrument_commissions : List (String × CommissionStructure) := []
  avg_daily_volumes : List (String × Nat) := []
  slippage_model : Option (String → Side → Nat → ℚ → Nat → ℚ) :=
    some (LinearSlippageModel.calculate_slippage (1 / 10000) (1 / 100))

/-- The commission-table resolution of `CostModel::calculate_commission`:
instrument-specific table first, then exchange table, then the
default-constructed `CommissionStructure`. -/
def CostModel.resolve_commission (m : CostModel) (instrument exchange : String) :
    CommissionStructure :=
  match (m.instrument_commissions.lookup instrument) with
  | some cs => cs
  | none =>
    match (m.commission_structures.lookup exchange) with
    | some cs => cs
    | none => {}

/-- Embeds `CostModel::calculate_commission` (private). -/
def CostModel.calculate_commission (m : CostModel) (instrument exchange : String)
    (quantity : Nat) (price : ℚ) (is_maker : Bool) : ℚ :=
  (m.resolve_commission instrument exchange).calculate_commission quantity price is_maker

/-- Embeds `CostModel::calculate_cost`. -/
def CostModel.calculate_cost (m : CostModel) (instrument exchange : String)
    (side : Side) (quantity : Nat) (price : ℚ) (is_aggressive : Bool) : TransactionCost :=
  let commission := m.calculate_commission instrument exchange quantity price (!is_aggressive)
  let slippage :=
    match m.slippage_model with
    | none => 0
    | some f =>
      let avg_vol := (m.avg_daily_volumes.lookup instrument).getD 1000000
      f instrument side quantity price avg_vol
  TransactionCost.mk2 commission slippage

/-- Embeds `CostModel::calculate_fill_cost`: always `calculate_cost(..., true)`,
hence commission with `is_maker = !true = false`. -/
def CostModel.calculate_fill_cost (m : CostModel) (fill : Fill)
    (exchange : String := "default") : TransactionCost :=
  m.calculate_cost fill.instrument exchange fill.side fill.quantity fill.price true

/-- Helper used to state maker-rate irrelevance: overwrite the maker fee
rate of every table held by the model. -/
def CostModel.with_maker_rate (m : CostModel) (r : ℚ) : CostModel :=
  { m with
    commission_structures :=
      m.commission_structures.map (fun e => (e.1, { e.2 with maker_fee_rate := r })),
    instrument_commissions :=
      m.instrument_commissions.map (fun e => (e.1, { e.2 with maker_fee_rate := r })) }

/-! ## strategy/risk_manager.h -/

/-- Embeds `struct RiskLimits`.  Durations (`std::chrono::minutes`) are carried in
nanoseconds, the base unit of `Timestamp` arithmetic. -/
structure RiskLimits : Type where
  max_position_size : Nat := 1000000
  max_notional_exposure : ℚ := 10000000
  max_portfolio_exposure : ℚ := 50000000
  max_daily_loss : ℚ := -10000
  max_total_loss : ℚ := -50000
  max_drawdown : ℚ := -(1 / 10)
  max_orders_per_minute : Nat := 100
  max_orders_per_day : Nat := 10000
  max_order_size : Nat := 10000
  loss_cooldown : Int := 1800000000000
  drawdown_cooldown : Int := 3600000000000
  enable_position_limits : Bool := true
  enable_loss_limits : Bool := true
  enable_exposure_limits : Bool := true
  enable_rate_limiting : Bool := true
deriving DecidableEq

/-- Embeds `enum class RiskCheckResult`. -/
inductive RiskCheckResult : Type where
  | APPROVED : RiskCheckResult
  | REJECTED_POSITION_LIMIT : RiskCheckResult
  | REJECTED_EXPOSURE_LIMIT : RiskCheckResult
  | REJECTED_LOSS_LIMIT : RiskCheckResult
  | REJECTED_ORDER_SIZE : RiskCheckResult
  | REJECTED_RATE_LIMIT : RiskCheckResult
  | REJECTED_COOLDOWN : RiskCheckResult
deriving DecidableEq, Repr

/-- Embeds `struct RiskViolation`.  The human-readable message is omitted (one of
its variants embeds a formatted remaining-time count; no claim depends on
message text). -/
structure RiskViolation : Type where
  result : RiskCheckResult
  current_value : ℚ
  limit_value : ℚ
deriving DecidableEq

/-- Embeds `RiskManager::RateLimitingData`: FIFO of submission timestamps (head =
`front`) plus the daily counter. -/
structure RateLimitingData : Type where
  order_times : List Int := []
  daily_orders : Nat := 0
deriving DecidableEq

/-- Embeds `RiskManager::PnLData`. -/
structure PnLData : Type where
  daily_pnl : ℚ := 0
  total_pnl : ℚ := 0
  cooldown_until : Int := 0
deriving DecidableEq

/-- Pointwise update of a function-view map (`std::unordered_map` accessed
through `operator[]`/`find`). -/
def fupdate {α : Type} [DecidableEq α] {β : Type} (f : α → β) (k : α) (v : β) : α → β :=
  fun k' => if k' = k then v else f k'

/-- Embeds `class RiskManager`.  Each `std::unordered_map` member is modelled as a
total function returning the value type's default for absent keys, which
is exactly what `operator[]` materialises on first access; `strategy_limits_`
is consulted only through `find`, hence the `Option`. -/
structure RiskManager : Type where
  limits : RiskLimits := {}
  strategy_limits : String → Option RiskLimits := fun _ => none
  positions : String × String → Position := fun _ => {}
  exposures : String × String → ℚ := fun _ => 0
  rate_limiting : String → RateLimitingData := fun _ => {}
  strategy_pnl : String → PnLData := fun _ => {}

/-- Embeds `RiskManager::get_limits`. -/
def RiskManager.get_limits (rm : RiskManager) (strategy : String) : RiskLimits :=
  (rm.strategy_limits strategy).getD rm.limits

/-- One minute in nanoseconds. -/
def minuteNs : Int := 60000000000

/-- Embeds `|static_cast<int64_t>(v)|` for a `uint64_t` value `v`: absolute value
of the two's-complement reinterpretation. -/
def int64Abs (v : Nat) : Nat :=
  if v < 9223372036854775808 then v else U64 - v

/-- The read-only tail of `RiskManager::check_order` (position, exposure,
loss and cooldown checks — these never write to the state; the `operator[]`
accesses they perform only materialise default entries, which the
function-view maps render invisible). -/
def RiskManager.check_order_tail (rm : RiskManager) (limits : RiskLimits)
    (o : Order) (now : Int) : Option RiskViolation :=
  -- position limits
  let posCheck : Option RiskViolation :=
    if limits.enable_position_limits then
      let position := rm.positions (o.strategy, o.instrument)
      let new_position : Nat :=
        match o.side with
        | Side.BUY => (position.quantity + o.quantity) % U64
        | Side.SELL => (position.quantity + (U64 - o.quantity % U64)) % U64
      if int64Abs new_position > limits.max_position_size then
        some { result := RiskCheckResult.REJECTED_POSITION_LIMIT,
               current_value := (int64Abs new_position : ℚ),
               limit_value := (limits.max_position_size : ℚ) }
      else none
    else none
  match posCheck with
  | some v => some v
  | none =>
    -- exposure limits
    let expCheck : Option RiskViolation :=
      if limits.enable_exposure_limits then
        let notional : ℚ := (o.quantity : ℚ) * o.price
        if notional > limits.max_notional_exposure then
          some { result := RiskCheckResult.REJECTED_EXPOSURE_LIMIT,
                 current_value := notional,
                 limit_value := limits.max_notional_exposure }
        else none
      else none
    match expCheck with
    | some v => some v
    | none =>
      -- loss limits and cooldowns
      if limits.enable_loss_limits then
        let pnl_data := rm.strategy_pnl o.strategy
        if pnl_data.daily_pnl < limits.max_daily_loss then
          some { result := RiskCheckResult.REJECTED_LOSS_LIMIT,
                 current_value := pnl_data.daily_pnl,
                 limit_value := limits.max_daily_loss }
        else if pnl_data.total_pnl < limits.max_total_loss then
          some { result := RiskCheckResult.REJECTED_LOSS_LIMIT,
                 current_value := pnl_data.total_pnl,
                 limit_value := limits.max_total_loss }
        else if pnl_data.cooldown_until > now then
          some { result := RiskCheckResult.REJECTED_COOLDOWN,
                 current_value := 0, limit_value := 0 }
        else none
      else none

/-- Embeds `RiskManager::check_order`.  `now` is the wall-clock reading the C++
takes once at entry (`high_resolution_clock::now()`); the returned state
reflects the in-place eviction of the rolling rate window (the only write
the function performs — the later checks are read-only and factored into
`check_order_tail`). -/
def RiskManager.check_order (rm : RiskManager) (o : Order) (now : Int) :
    Option RiskViolation × RiskManager :=
  let limits := rm.get_limits o.strategy
  -- order size
  if limits.enable_position_limits ∧ o.quantity > limits.max_order_size then
    (some { result := RiskCheckResult.REJECTED_ORDER_SIZE,
            current_value := (o.quantity : ℚ),
            limit_value := (limits.max_order_size : ℚ) }, rm)
  else if limits.enable_rate_limiting then
    -- rate limiting: evict entries older than one minute, then test
    let rate_data := rm.rate_limiting o.strategy
    let evicted := rate_data.order_times.dropWhile (fun t => decide (t < now - minuteNs))
    let rm1 : RiskManager :=
      { rm with rate_limiting :=
          fupdate rm.rate_limiting o.strategy ({ rate_data with order_times := evicted }) }
    if evicted.length ≥ limits.max_orders_per_minute then
      (some { result := RiskCheckResult.REJECTED_RATE_LIMIT,
              current_value := (evicted.length : ℚ),
              limit_value := (limits.max_orders_per_minute : ℚ) }, rm1)
    else if rate_data.daily_orders ≥ limits.max_orders_per_day then
      (some { result := RiskCheckResult.REJECTED_RATE_LIMIT,
              current_value := (rate_data.daily_orders : ℚ),
              limit_value := (limits.max_orders_per_day : ℚ) }, rm1)
    else (rm1.check_order_tail limits o now, rm1)
  else (rm.check_order_tail limits o now, rm)

/-- Embeds `RiskManager::on_order_submitted`. -/
def RiskManager.on_order_submitted (rm : RiskManager) (o : Order) : RiskManager :=
  if rm.limits.enable_rate_limiting then
    let rate_data := rm.rate_limiting o.strategy
    let rate_data' : RateLimitingData :=
      { order_times := rate_data.order_times ++ [o.timestamp],
        daily_orders := rate_data.daily_orders + 1 }
    { rm with rate_limiting := fupdate rm.rate_limiting o.strategy rate_data' }
  else rm

/-- Embeds `RiskManager::calculate_trade_pnl` ("Simplified P&L calculation ...
just commission cost"). -/
def RiskManager.calculate_trade_pnl (_rm : RiskManager) (fill : Fill)
    (_position : Position) : ℚ :=
  -fill.commission

/-- Embeds `RiskManager::on_fill`.  `now` is the wall-clock reading used for the
cooldown trigger.  The position quantity is `uint64_t`: `+=` and `-=` wrap
modulo `2^64`. -/
def RiskManager.on_fill (rm : RiskManager) (fill : Fill) (now : Int) : RiskManager :=
  let key := (fill.strategy, fill.instrument)
  let position := rm.positions key
  let q' : Nat :=
    match fill.side with
    | Side.BUY => (position.quantity + fill.quantity) % U64
    | Side.SELL => (position.quantity + (U64 - fill.quantity % U64)) % U64
  let position' := { position with quantity := q' }
  let rm1 : RiskManager := { rm with positions := fupdate rm.positions key position' }
  let rm2 : RiskManager :=
    { rm1 with exposures :=
        fupdate rm1.exposures key (rm1.exposures key + (fill.quantity : ℚ) * fill.price) }
  let trade_pnl := rm2.calculate_trade_pnl fill position'
  let pnl_data := rm2.strategy_pnl fill.strategy
  let pnl1 := { pnl_data with daily_pnl := pnl_data.daily_pnl + trade_pnl,
                              total_pnl := pnl_data.total_pnl + trade_pnl }
  let limits := rm.get_limits fill.strategy
  let pnl2 :=
    if limits.enable_loss_limits ∧ trade_pnl < -1000 then
      { pnl1 with cooldown_until := now + limits.loss_cooldown }
    else pnl1
  { rm2 with strategy_pnl := fupdate rm2.strategy_pnl fill.strategy pnl2 }

/-- Signed sum of a fill list for a given (strategy, instrument) pair:
buys count positively, sells negatively (the spec's invariant 4). -/
def signedFillSum (key : String × String) (fills : List Fill) : Int :=
  fills.foldl
    (fun acc f =>
      if f.strategy = key.1 ∧ f.instrument = key.2 then
        match f.side with
        | Side.BUY => acc + (f.quantity : Int)
        | Side.SELL => acc - (f.quantity : Int)
      else acc) 0

/-- Fold `on_fill` over a fill list (every fill carried the same wall-clock
reading; the cooldown field is irrelevant to the position claim). -/
def RiskManager.on_fills (rm : RiskManager) (fills : List Fill) (now : Int) : RiskManager :=
  fills.foldl (fun acc f => acc.on_fill f now) rm

/-! ## Tick store and the engine loop (`TickDataStore`, `BacktestEngine::run`)

The columnar `TickDataStore` keeps one `TickData` (a bundle of parallel
per-field vectors) per instrument; observably this is the sequence of
ticks in insertion order, which is how we model it.  The engine's `run`
iterates `data_store_->get_all_ticks()` — a `std::unordered_map` whose
iteration order is unspecified; we model the store as an association list
iterated in that list order (the counterexamples below use a single
instrument so that this choice is immaterial). -/

/-- The tick store: instrument → ticks in stored (append) order. -/
def TickDataStore : Type := List (String × List MarketDataTick)

/-- Embeds `TickData::get_tick` + the caller's `tick.instrument = inst` fix-up
performed by `get_all_ticks`. -/
def withInstrument (inst : String) (t : MarketDataTick) : MarketDataTick :=
  { t with instrument := inst }

/-- Embeds `TickDataStore::get_all_ticks`. -/
def get_all_ticks (store : TickDataStore) : List (String × List MarketDataTick) :=
  store.map (fun e => (e.1, e.2.map (withInstrument e.1)))

/-- The sequence of MarketEvents `BacktestEngine::run` publishes (each
`MarketEvent` carries its tick, and its timestamp is the tick's): for each
instrument of `get_all_ticks()` in turn, each stored tick in stored order.
Every registered strategy's `on_market_data` receives exactly this
sequence.  `run` performs no sort and no cross-instrument merge. -/
def runDelivered (store : TickDataStore) : List MarketDataTick :=
  (get_all_ticks store).foldr (fun e acc => e.2 ++ acc) []

/-- The delivered timestamps are non-decreasing. -/
def timeOrdered (events : List MarketDataTick) : Prop :=
  events.Chain' (fun a b => a.timestamp ≤ b.timestamp)

/-! ## The simulation clock (`SimClock`, python/bindings.h)

`scheduled_events_` is `std::priority_queue<ScheduledEvent,
std::vector<ScheduledEvent>, std::greater<ScheduledEvent>>` where
`ScheduledEvent::operator>` compares `execution_time` only — there is no
insertion counter.  We embed the binary-heap algorithms the two standard
libraries this project builds with (GNU libstdc++ and MSVC) both use:
`push` is push_back + `__push_heap` (sift the hole up while the parent
compares greater than the inserted value), `pop` is `__pop_heap`
(extract the root, cascade the hole down — on a tie between the two
children the RIGHT child is promoted — then `__push_heap` the old last
element into the final hole) + pop_back.  The sift loops are written with
an explicit fuel argument so that they are structurally recursive and
kernel-reducible; the fuel supplied by the wrappers always suffices
(each step strictly decreases the hole distance). -/

/-- Embeds `struct ScheduledEvent`: due time plus the callback, the latter opaque
and identified by a numeric tag. -/
structure ScheduledEvent : Type where
  execution_time : Int
  cb : Nat
deriving DecidableEq, Repr

instance : Inhabited ScheduledEvent := ⟨⟨0, 0⟩⟩

/-- Structural equality on `Except` results (absent from core). -/
instance {ε α : Type} [DecidableEq ε] [DecidableEq α] : DecidableEq (Except ε α) :=
  fun a b =>
    match a, b with
    | Except.ok x, Except.ok y =>
      if h : x = y then Decidable.isTrue (by rw [h])
      else Decidable.isFalse (fun hh => by cases hh; exact h rfl)
    | Except.error x, Except.error y =>
      if h : x = y then Decidable.isTrue (by rw [h])
      else Decidable.isFalse (fun hh => by cases hh; exact h rfl)
    | Except.ok _, Except.error _ => Decidable.isFalse (fun hh => by cases hh)
    | Except.error _, Except.ok _ => Decidable.isFalse (fun hh => by cases hh)

/-- Embeds `ScheduledEvent::operator>` (the heap comparator `std::greater`). -/
def seGT (a b : ScheduledEvent) : Bool :=
  decide (b.execution_time < a.execution_time)

/-- Parent index in the implicit binary heap. -/
def parentIdx (i : Nat) : Nat := (i - 1) / 2

/-- Embeds `__push_heap(first, holeIndex, topIndex = 0, value)`: move the hole up
while the parent compares greater than `value`, then store `value`.  The
first argument is fuel (the wrappers pass `hole + 1`, always enough since
the hole index strictly decreases). -/
def pushHeapLoop (v : ScheduledEvent) :
    Nat → List ScheduledEvent → Nat → List ScheduledEvent
  | 0, l, hole => l.set hole v
  | fuel + 1, l, hole =>
    if hole = 0 then l.set 0 v
    else
      let p := parentIdx hole
      if seGT (l.getD p default) v then pushHeapLoop v fuel (l.set hole (l.getD p default)) p
      else l.set hole v

/-- Embeds `priority_queue::push`: `push_back` then `std::push_heap` over the
whole range (the new element is the value, the last index the hole). -/
def pqPush (l : List ScheduledEvent) (v : ScheduledEvent) : List ScheduledEvent :=
  pushHeapLoop v (l.length + 1) (l ++ [v]) l.length

/-- Embeds `__adjust_heap(first, holeIndex = 0, len, value)`: cascade the hole
down to a leaf, always promoting the smaller child and the RIGHT child on
ties (`if comp(first[sc], first[sc-1]) --sc` keeps `sc` when the right
child does not compare greater than the left); the even-length tail case
moves a lone left child up; finally `__push_heap` sifts `value` back up
from the leaf hole.  First argument is fuel (wrappers pass `len`). -/
def adjustHeap (v : ScheduledEvent) (len : Nat) :
    Nat → List ScheduledEvent → Nat → List ScheduledEvent
  | 0, l, hole => l.set hole v
  | fuel + 1, l, hole =>
    if hole < (len - 1) / 2 then
      let sc1 := 2 * (hole + 1)
      let sc := if seGT (l.getD sc1 default) (l.getD (sc1 - 1) default) then sc1 - 1 else sc1
      adjustHeap v len fuel (l.set hole (l.getD sc default)) sc
    else if len % 2 = 0 ∧ hole = (len - 2) / 2 then
      let c := 2 * (hole + 1) - 1
      pushHeapLoop v (c + 1) (l.set hole (l.getD c default)) c
    else
      pushHeapLoop v (hole + 1) l hole

/-- Embeds `priority_queue::pop`: `std::pop_heap` (guarded by `last - first > 1`:
take the last element as the value to re-insert, re-heapify the first
`n - 1` slots from a root hole) then `pop_back`. -/
def pqPop (l : List ScheduledEvent) : List ScheduledEvent :=
  if l.length ≤ 1 then []
  else
    adjustHeap (l.getD (l.length - 1) default) (l.length - 1) (l.length - 1)
      (l.take (l.length - 1)) 0

/-- Embeds `SimClock::process_scheduled_events`: pop and fire while the top's due
time is `≤ current_time_`.  Returns (fired events in firing order,
remaining queue).  Callbacks are opaque: in the source they run outside
the lock and may do arbitrary work; the claims under study concern which
events fire and in what order, so the model does not re-enter the clock.
First argument is fuel (the wrapper passes the queue length; each
iteration pops one element). -/
def processEventsFuel : Nat → Int → List ScheduledEvent →
    List ScheduledEvent × List ScheduledEvent
  | 0, _, l => ([], l)
  | _ + 1, _, [] => ([], [])
  | fuel + 1, cur, e :: rest =>
    if e.execution_time ≤ cur then
      let res := processEventsFuel fuel cur (pqPop (e :: rest))
      (e :: res.1, res.2)
    else ([], e :: rest)

/-- The fired/remaining split performed by one `process_scheduled_events`
call at clock time `cur`. -/
def process_scheduled_events (cur : Int) (l : List ScheduledEvent) :
    List ScheduledEvent × List ScheduledEvent :=
  processEventsFuel l.length cur l

/-- Embeds `class SimClock`: current time plus the scheduled-event heap (the
underlying `std::vector` of the priority queue, in array order). -/
structure SimClock : Type where
  current_time : Int
  scheduled_events : List ScheduledEvent := []
deriving DecidableEq, Repr

/-- Embeds `SimClock::now`. -/
def SimClock.now (s : SimClock) : Int := s.current_time

/-- Embeds `SimClock::advance_to`: throws (`Except.error`, state unchanged —
the C++ throws before any mutation) on rewind, otherwise sets the time
and fires everything due.  The fired list stands for the callback
invocations, in order. -/
def SimClock.advance_to (s : SimClock) (t : Int) :
    Except String (List ScheduledEvent) × SimClock :=
  if t < s.current_time then
    (Except.error "Cannot advance clock backwards", s)
  else
    let res := process_scheduled_events t s.scheduled_events
    (Except.ok res.1, { current_time := t, scheduled_events := res.2 })

/-- Embeds `SimClock::schedule`. -/
def SimClock.schedule (s : SimClock) (e : ScheduledEvent) : SimClock :=
  { s with scheduled_events := pqPush s.scheduled_events e }

/-- The binary min-heap invariant (with respect to due times) of the
underlying array, as maintained by `std::priority_queue`. -/
def IsHeap (l : List ScheduledEvent) : Prop :=
  ∀ i < l.length, 0 < i →
    (l.getD (parentIdx i) default).execution_time ≤ (l.getD i default).execution_time

instance (l : List ScheduledEvent) : Decidable (IsHeap l) :=
  inferInstanceAs (Decidable (∀ i < l.length, 0 < i →
    (l.getD (parentIdx i) default).execution_time ≤ (l.getD i default).execution_time))

/-! ## Concrete instances used by the claim theorems -/

/-- A book whose bid side holds 10@100 and 5@99 (the map is descending,
so the list is ordered 100 then 99). -/
def sellMarketBidsBook : OrderBook :=
  { instrument := "I",
    bids := [(100, { total_volume := 10, orders := [(1, 10)] }),
             (99, { total_volume := 5, orders := [(2, 5)] })] }

/-- A sell market order for quantity 3. -/
def sellMarketOrder : Order :=
  { id := 7, timestamp := 0, instrument := "I", strategy := "s",
    side := Side.SELL, type := OrderType.MARKET, price := 0, quantity := 3 }

/-- The S1 book: asks 10@100 and 5@101. -/
def s1Book : OrderBook :=
  { instrument := "I",
    asks := [(100, { total_volume := 10, orders := [(1, 10)] }),
             (101, { total_volume := 5, orders := [(2, 5)] })] }

/-- The S1 buy market order, quantity 12. -/
def s1BuyOrder : Order :=
  { id := 8, timestamp := 0, instrument := "I", strategy := "s",
    side := Side.BUY, type := OrderType.MARKET, price := 0, quantity := 12 }

/-- A one-level ask book whose single FIFO entry carries quantity 10. -/
def fifoBook : OrderBook :=
  { instrument := "I", asks := [(100, { total_volume := 10, orders := [(1, 10)] })] }

/-- A buy market order for 4 against `fifoBook`. -/
def fifoBuyOrder : Order :=
  { id := 9, timestamp := 0, instrument := "I", strategy := "s",
    side := Side.BUY, type := OrderType.MARKET, price := 0, quantity := 4 }

/-- Buy limit 4@50. -/
def buyLimit50 : Order :=
  { id := 1, timestamp := 0, instrument := "I", strategy := "s",
    side := Side.BUY, type := OrderType.LIMIT, price := 50, quantity := 4 }

/-- Buy limit 4@60. -/
def buyLimit60 : Order :=
  { id := 2, timestamp := 0, instrument := "I", strategy := "s",
    side := Side.BUY, type := OrderType.LIMIT, price := 60, quantity := 4 }

/-- An empty book for instrument "I". -/
def emptyBook : OrderBook := { instrument := "I" }

/-- Book with resting bids at 50 and 60, built through `add_order`. -/
def twoBidsBook : OrderBook := (emptyBook.add_order buyLimit50).add_order buyLimit60

/-- A sell fill of quantity 5 for strategy "s" on instrument "i". -/
def shortFill : Fill :=
  { order_id := 1, timestamp := 0, instrument := "i", strategy := "s",
    side := Side.SELL, price := 10, quantity := 5 }

/-- A risk manager whose rolling window for strategy "s" holds one stale
submission timestamp (t = 0). -/
def rateWindowRM : RiskManager :=
  { rate_limiting := fupdate (fun _ => {}) "s" { order_times := [0], daily_orders := 0 } }

/-- A small order for strategy "s". -/
def rateOrder : Order :=
  { id := 1, timestamp := 0, instrument := "i", strategy := "s",
    side := Side.BUY, type := OrderType.MARKET, price := 1, quantity := 1 }

/-- A store holding one instrument whose ticks were appended out of
timestamp order (2 then 1); `run` never sorts. -/
def c1Store : TickDataStore :=
  [("A", [{ timestamp := 2, instrument := "" }, { timestamp := 1, instrument := "" }])]

/-- A single-instrument store whose ticks are already in timestamp order. -/
def c1SortedStore : TickDataStore :=
  [("A", [{ timestamp := 1, instrument := "" }, { timestamp := 3, instrument := "" }])]

/-- Clock at 100 with four scheduled callbacks: X(due 100, cb 0), then
A(due 105, cb 1), then B(due 105, cb 2), then W(due 109, cb 3) — A and B
share a due time and A was inserted first. -/
def c8Clock : SimClock :=
  ((((⟨100, []⟩ : SimClock).schedule ⟨100, 0⟩).schedule ⟨105, 1⟩).schedule
      ⟨105, 2⟩).schedule ⟨109, 3⟩

/-- Clock at 100 with exactly the S7 pair: A(due 105, cb 1) inserted
before B(due 105, cb 2). -/
def s7Clock : SimClock :=
  ((⟨100, []⟩ : SimClock).schedule ⟨105, 1⟩).schedule ⟨105, 2⟩

end Backtest

namespace Backtest

/-! # Theorems -/

/-! ## C2 — `execute_market_order` (code bug on the sell side)

A BUY does take from the lowest ask upward (the S1 scenario in the claim
is reproduced exactly).  A SELL, however, iterates `bids_` with
`rbegin()`: on the `std::greater`-ordered (descending) map this starts at
the LOWEST bid, not the highest, contradicting the claim (and the
function's own comment "Sell at best bids"). -/

/-- C2: at the failing input — bids 10@100 and 5@99, sell market quantity
3 — the code fills 3@99 (the lowest bid) and leaves 10@100 and 2@99,
whereas the claim requires the fill to come from the best (highest) bid
100.  The S1 buy scenario, by contrast, behaves exactly as claimed. -/
theorem execute_market_order_sell_takes_lowest_bid :
    (sellMarketBidsBook.execute_market_order sellMarketOrder 5).1 =
      [{ order_id := 7, timestamp := 5, instrument := "I", strategy := "s",
         side := Side.SELL, price := 99, quantity := 3 }] ∧
    (sellMarketBidsBook.execute_market_order sellMarketOrder 5).2.bids.map
        (fun e => (e.1, e.2.total_volume)) = [(100, 10), (99, 2)] ∧
    (s1Book.execute_market_order s1BuyOrder 5).1.map (fun f => (f.price, f.quantity)) =
      [(100, 10), (101, 2)] ∧
    (s1Book.execute_market_order s1BuyOrder 5).2.asks.map
        (fun e => (e.1, e.2.total_volume)) = [(101, 3)] ∧
    (s1Book.execute_market_order s1BuyOrder 5).2.best_ask = some 101 := by
  decide

/-! ## C6 — `best_bid` returns the LOWEST resting bid (code bug)

`best_bid()` reads `bids_.rbegin()->first`; with the `std::greater`
comparator that is the smallest key.  With bids resting at 50 and 60 it
returns 50, not the highest bid 60 required by the claim (and by its own
comment "Get best bid price").  The claim's concrete single-bid scenario
does hold, as the third and fourth conjuncts show. -/

/-- C6: with two resting bids (50 and 60) the code's `best_bid()` returns
`some 50`, the lowest; after a buy limit 4@50 rests in an empty book,
`best_bid = some 50` and `best_ask = none` (that part of the claim is
as stated, since only one bid is present). -/
theorem best_bid_returns_lowest_bid :
    twoBidsBook.bids.map Prod.fst = [60, 50] ∧
    twoBidsBook.best_bid = some 50 ∧
    (emptyBook.execute_limit_order buyLimit50 0).1 = [] ∧
    (emptyBook.execute_limit_order buyLimit50 0).2.best_bid = some 50 ∧
    (emptyBook.execute_limit_order buyLimit50 0).2.best_ask = none := by
  decide

/-! ## C7 — linear slippage model (code bug in the `adv = 0` branch)

For `avg_daily_volume = 0` the code returns `base_rate * reference_price`
directly — no negation, no absolute value — although its own comment says
"Slippage is always negative".  The `adv > 0` branch matches the claim,
including the S5 numbers. -/

/-- C7: at base = 0.0001, impact = 0.01, reference = 200 the `adv = 0`
branch yields +1/50 (= +0.02), not −|base·reference| = −1/50 as claimed;
the S5 instance (qty 1000, adv 100000) does yield −1/25 = −0.04. -/
theorem linear_slippage_zero_adv_positive :
    LinearSlippageModel.calculate_slippage (1/10000) (1/100) "I" Side.BUY 1000 200 0
      = 1/50 ∧
    (1/50 : ℚ) ≠ Neg.neg (abs ((1/10000 : ℚ) * 200)) ∧
    LinearSlippageModel.calculate_slippage (1/10000) (1/100) "I" Side.BUY 1000 200 100000
      = -(1/25) := by
  refine ⟨?_, ?_, ?_⟩
  · norm_num [LinearSlippageModel.calculate_slippage]
  · have h : |(1/10000 : ℚ) * 200| = 1/50 := by
      rw [abs_of_pos] <;> norm_num
    rw [h]; norm_num
  · have h : ((1/10000 : ℚ) + (1/100) * ((1000 : ℚ) / (100000 : ℚ))) * 200 = 1/25 := by
      norm_num
    norm_num [LinearSlippageModel.calculate_slippage, h]

/-! ## C4 — `on_fill` position accounting (code bug for net shorts)

`Position.quantity` is `Volume = uint64_t` ("Positive for long, negative
for short" says the field's comment) and `on_fill` updates it with
wrapping unsigned arithmetic: a net-short position stores `2^64 − n`,
which is not the (negative) signed sum of fills. -/

/-- C4: one sell fill of quantity 5 on a fresh risk manager records
position quantity `2^64 − 5 = 18446744073709551611` for ("s", "i"),
which differs from the signed fill sum −5 the claim requires. -/
theorem on_fill_short_position_wraps :
    (((RiskManager.on_fills {} [shortFill] 0).positions ("s", "i")).quantity : Int)
        = (18446744073709551611 : Int) ∧
    signedFillSum ("s", "i") [shortFill] = (-5 : Int) ∧
    (((RiskManager.on_fills {} [shortFill] 0).positions ("s", "i")).quantity : Int)
        ≠ signedFillSum ("s", "i") [shortFill] := by
  decide

/-! ## C5 — level invariant (counterexample to the FIFO-sum half)

Matching decrements only the cached `total_volume`; the FIFO queue is
never popped, so a partially consumed level's cached volume no longer
equals the sum of its FIFO entries. -/

/-- C5 counterexample: asks {100@10} with a single FIFO entry of 10; a buy
market order of 4 leaves the level resident with `total_volume = 6` while
its FIFO entries still sum to 10. -/
theorem level_volume_fifo_sum_mismatch :
    ((fifoBook.execute_market_order fifoBuyOrder 0).2.asks.map
        (fun e => (e.1, e.2.total_volume, e.2.fifo_sum))) = [(100, 6, 10)] ∧
    ¬ levelsFifoConsistent (fifoBook.execute_market_order fifoBuyOrder 0).2.asks := by
  decide

/-! ## C3 — `check_order` is not state-preserving (counterexample)

The rate-limiting block evicts stale timestamps from the rolling window
in place (`rate_data.order_times.pop()` through a non-const reference), so
`check_order` does change the rate-limit window. -/

/-- C3 counterexample: a window holding the stale timestamp 0 is emptied
by a `check_order` at wall-clock 100 s even though the order is approved. -/
theorem check_order_evicts_rate_window :
    ((rateWindowRM.check_order rateOrder 100000000000).2.rate_limiting "s").order_times
        = [] ∧
    (rateWindowRM.rate_limiting "s").order_times = [0] ∧
    (rateWindowRM.check_order rateOrder 100000000000).1 = none := by
  refine ⟨by decide, by decide, ?_⟩
  norm_num [RiskManager.check_order, RiskManager.check_order_tail, RiskManager.get_limits,
    rateWindowRM, rateOrder, fupdate, minuteNs, int64Abs, U64, List.dropWhile]

/-! ## C1 — `run` does not sort or merge (counterexample)

`BacktestEngine::run` iterates `get_all_ticks()` and publishes each
instrument's stored tick sequence as is: no `sort_by_timestamp` call, no
cross-instrument merge. -/

/-- C1 counterexample: a store whose single instrument holds ticks
appended at timestamps 2 then 1 is replayed as [2, 1] — the MarketEvent
sequence every strategy receives is not non-decreasing in timestamp, and
no sorting took place. -/
theorem run_delivers_unsorted_ticks :
    (runDelivered c1Store).map (fun t => t.timestamp) = [2, 1] ∧
    ¬ timeOrdered (runDelivered c1Store) := by
  constructor
  · decide
  · simp [timeOrdered, runDelivered, c1Store, get_all_ticks, withInstrument,
      List.chain'_cons, List.chain'_singleton]

/-! ## C8 — equal-due-time callbacks (counterexample to stability)

`ScheduledEvent` carries no insertion counter and `std::priority_queue`'s
binary heap is not stable: with X(100), A(105), B(105), W(109) scheduled
in that order, `advance_to(105)` fires X, then B, then A — B overtakes A
although both are due at 105 and A was inserted first. -/

/-- C8 counterexample: the scheduled order is cb 1 (A, due 105) before
cb 2 (B, due 105), but the fired order is [cb 0, cb 2, cb 1]. -/
theorem equal_due_callbacks_fire_out_of_order :
    c8Clock.scheduled_events =
      [⟨100, 0⟩, ⟨105, 1⟩, ⟨105, 2⟩, ⟨109, 3⟩] ∧
    (c8Clock.advance_to 105).1 =
      Except.ok [⟨100, 0⟩, ⟨105, 2⟩, ⟨105, 1⟩] ∧
    (c8Clock.advance_to 105).2 = { current_time := 105, scheduled_events := [⟨109, 3⟩] } := by
  decide

/-- C8 amended: with ONLY the two callbacks A (cb 1) and B (cb 2) scheduled
at due 105 in that order, `advance_to(104)` fires neither, `advance_to(105)`
then fires A before B, and a later `advance_to(110)` fires nothing. -/
theorem two_equal_due_callbacks_alone_fire_in_order :
    (s7Clock.advance_to 104).1 = Except.ok [] ∧
    ((s7Clock.advance_to 104).2.advance_to 105).1 =
      Except.ok [⟨105, 1⟩, ⟨105, 2⟩] ∧
    (((s7Clock.advance_to 104).2.advance_to 105).2.advance_to 110).1 =
      Except.ok [] := by
  decide

/-! ## C10 — commission is always computed at the taker rate -/

/-- Lemma: `List.lookup` commutes with overwriting the maker rate of every value. -/
theorem lookup_with_maker_rate (l : List (String × CommissionStructure)) (r : ℚ)
    (k : String) :
    (l.map (fun e => (e.1, { e.2 with maker_fee_rate := r }))).lookup k =
      (l.lookup k).map (fun cs => { cs with maker_fee_rate := r }) := by
  induction l with
  | nil => rfl
  | cons e rest ih =>
    by_cases h : k = e.1
    · have hb : (k == e.1) = true := by simpa using h
      simp [List.lookup, hb]
    · have hb : (k == e.1) = false := by simpa using h
      simp [List.lookup, hb, ih]

/-- Commission at `is_maker = false` is insensitive to every maker rate
held by the model. -/
theorem resolve_commission_taker_ignores_maker (m : CostModel) (r : ℚ)
    (i e : String) (q : Nat) (p : ℚ) :
    ((m.with_maker_rate r).resolve_commission i e).calculate_commission q p false =
      (m.resolve_commission i e).calculate_commission q p false := by
  unfold CostModel.with_maker_rate CostModel.resolve_commission
  rw [lookup_with_maker_rate, lookup_with_maker_rate]
  cases m.instrument_commissions.lookup i with
  | some cs => simp [CommissionStructure.calculate_commission]
  | none =>
    cases m.commission_structures.lookup e with
    | some cs => simp [CommissionStructure.calculate_commission]
    | none => simp

/-- C10: for every cost model, fill and exchange, `calculate_fill_cost`
computes the commission of the resolved table at the TAKER rate
(`is_maker = false`), and overwriting every configured maker rate with an
arbitrary value never changes any fill's commission. -/
theorem calculate_fill_cost_always_taker (m : CostModel) (f : Fill)
    (exchange : String) (r : ℚ) :
    (m.calculate_fill_cost f exchange).commission =
      stdClamp
        ((f.quantity : ℚ) * f.price *
            (m.resolve_commission f.instrument exchange).taker_fee_rate +
          (m.resolve_commission f.instrument exchange).fixed_fee)
        (m.resolve_commission f.instrument exchange).min_commission
        (m.resolve_commission f.instrument exchange).max_commission ∧
    ((m.with_maker_rate r).calculate_fill_cost f exchange).commission =
      (m.calculate_fill_cost f exchange).commission := by
  constructor
  · rfl
  · show ((m.with_maker_rate r).resolve_commission f.instrument exchange).calculate_commission
        f.quantity f.price false =
      (m.resolve_commission f.instrument exchange).calculate_commission f.quantity f.price false
    exact resolve_commission_taker_ignores_maker m r f.instrument exchange f.quantity f.price

/-! ## C3 amended — what `check_order` does and does not change -/

/-- Lemma: `List.dropWhile` is idempotent. -/
theorem dropWhile_idem {α : Type} (p : α → Bool) (l : List α) :
    (l.dropWhile p).dropWhile p = l.dropWhile p := by
  induction l with
  | nil => rfl
  | cons a t ih =>
    by_cases h : p a = true
    · simp [List.dropWhile_cons, h, ih]
    · simp [List.dropWhile_cons, h]

theorem fupdate_apply_same {α : Type} [DecidableEq α] {β : Type} (f : α → β) (k : α) (v : β) :
    fupdate f k v k = v := by
  simp [fupdate]

theorem fupdate_apply_ne {α : Type} [DecidableEq α] {β : Type} (f : α → β) (k k' : α)
    (v : β) (h : k' ≠ k) : fupdate f k v k' = f k' := by
  simp [fupdate, h]

theorem fupdate_fupdate {α : Type} [DecidableEq α] {β : Type} (f : α → β) (k : α) (v w : β) :
    fupdate (fupdate f k v) k w = fupdate f k w := by
  funext x
  by_cases h : x = k <;> simp [fupdate, h]

/-- Pull a common second component out of a two-level `if` on pairs. -/
theorem ite_pair_state {α β : Type} (c₁ c₂ : Prop) [Decidable c₁] [Decidable c₂]
    (a₁ a₂ a₃ : α) (s : β) :
    (if c₁ then (a₁, s) else if c₂ then (a₂, s) else (a₃, s)) =
      ((if c₁ then a₁ else if c₂ then a₂ else a₃), s) := by
  split_ifs <;> rfl

/-- C3 amended: `check_order` leaves positions, exposures and P&L records
unchanged and never touches a daily-order counter (only the rolling
window can shrink by eviction), and it is idempotent: a second call with
the same order and the same wall-clock reading returns the same result
and leaves the state exactly as the first call left it. -/
theorem check_order_frame_and_idempotent (rm : RiskManager) (o : Order) (now : Int) :
    (rm.check_order o now).2.positions = rm.positions ∧
    (rm.check_order o now).2.exposures = rm.exposures ∧
    (rm.check_order o now).2.strategy_pnl = rm.strategy_pnl ∧
    (∀ s, ((rm.check_order o now).2.rate_limiting s).daily_orders =
      (rm.rate_limiting s).daily_orders) ∧
    ((rm.check_order o now).2.check_order o now) =
      ((rm.check_order o now).1, (rm.check_order o now).2) := by
  have hdw := dropWhile_idem (fun t : Int => decide (t < now - minuteNs))
    ((rm.rate_limiting o.strategy).order_times)
  refine ⟨?_, ?_, ?_, ?_, ?_⟩
  · simp only [RiskManager.check_order, RiskManager.get_limits]
    split_ifs <;> rfl
  · simp only [RiskManager.check_order, RiskManager.get_limits]
    split_ifs <;> rfl
  · simp only [RiskManager.check_order, RiskManager.get_limits]
    split_ifs <;> rfl
  · intro s
    simp only [RiskManager.check_order, RiskManager.get_limits]
    split_ifs <;> try rfl
    all_goals
      by_cases hs : s = o.strategy
    all_goals
      simp [fupdate, hs]
  · by_cases h1 : ((rm.strategy_limits o.strategy).getD rm.limits).enable_position_limits ∧
        o.quantity > ((rm.strategy_limits o.strategy).getD rm.limits).max_order_size
    · simp only [RiskManager.check_order, RiskManager.get_limits, if_pos h1]
    · by_cases h2 : ((rm.strategy_limits o.strategy).getD rm.limits).enable_rate_limiting
      · simp only [RiskManager.check_order, RiskManager.get_limits, if_neg h1, if_pos h2,
          ite_pair_state, fupdate_apply_same, hdw, fupdate_fupdate]
      · simp only [RiskManager.check_order, RiskManager.get_limits, if_neg h1, if_neg h2]

/-! ## C5 amended — all resident levels keep positive cached volume -/

/-- The matching sweep keeps every remaining level's cached volume
positive: levels are either untouched, kept with a nonzero decremented
volume, or erased. -/
theorem sweepLevels_positive (mk : ℚ → Nat → Fill) (cross : ℚ → Bool)
    (ls : List (ℚ × BookLevel)) (r : Nat) (h : levelsPositive ls) :
    levelsPositive (sweepLevels mk cross ls r).2.1 := by
  induction ls generalizing r with
  | nil => intro e he; simp [sweepLevels] at he
  | cons e rest ih =>
    obtain ⟨p, lvl⟩ := e
    have hrest : levelsPositive rest := fun x hx => h x (List.mem_cons_of_mem _ hx)
    simp only [sweepLevels]
    split_ifs with hstop hzero
    · exact h
    · exact ih _ hrest
    · intro x hx
      rcases List.mem_cons.mp hx with hx' | hx'
      · subst hx'
        simpa using Nat.pos_of_ne_zero hzero
      · exact ih _ hrest x hx'

/-- Lemma: `std::map` insertion keeps positivity when the added quantity is
positive. -/
theorem mapAddOrder_positive (sb : ℚ → ℚ → Bool) (ls : List (ℚ × BookLevel))
    (p : ℚ) (id q : Nat) (h : levelsPositive ls) (hq : 0 < q) :
    levelsPositive (mapAddOrder sb ls p id q) := by
  induction ls with
  | nil =>
    intro x hx
    simp only [mapAddOrder, List.mem_singleton] at hx
    subst hx
    simpa [BookLevel.add_order] using hq
  | cons e rest ih =>
    obtain ⟨k, lvl⟩ := e
    have hrest : levelsPositive rest := fun x hx => h x (List.mem_cons_of_mem _ hx)
    have hlvl : 0 < lvl.total_volume := h (k, lvl) (List.mem_cons_self _ _)
    simp only [mapAddOrder]
    split_ifs with hlt heq
    · intro x hx
      rcases List.mem_cons.mp hx with hx' | hx'
      · subst hx'; simpa [BookLevel.add_order] using hq
      · exact h x hx'
    · intro x hx
      rcases List.mem_cons.mp hx with hx' | hx'
      · subst hx'
        simp only [BookLevel.add_order]
        exact Nat.lt_of_lt_of_le hlvl (Nat.le_add_right _ _)
      · exact hrest x hx'
    · intro x hx
      rcases List.mem_cons.mp hx with hx' | hx'
      · subst hx'; exact hlvl
      · exact ih hrest x hx'

/-- Lemma: `remove_order`'s level handling keeps positivity: a drained level is
erased, a surviving one keeps a nonzero volume. -/
theorem mapRemoveOrder_positive (ls : List (ℚ × BookLevel)) (p : ℚ) (q : Nat)
    (h : levelsPositive ls) : levelsPositive (mapRemoveOrder ls p q) := by
  induction ls with
  | nil => intro x hx; simp [mapRemoveOrder] at hx
  | cons e rest ih =>
    obtain ⟨k, lvl⟩ := e
    have hrest : levelsPositive rest := fun x hx => h x (List.mem_cons_of_mem _ hx)
    simp only [mapRemoveOrder]
    split_ifs with heq hzero
    · exact hrest
    · intro x hx
      rcases List.mem_cons.mp hx with hx' | hx'
      · subst hx'
        simpa [BookLevel.remove_order] using Nat.pos_of_ne_zero hzero
      · exact hrest x hx'
    · intro x hx
      rcases List.mem_cons.mp hx with hx' | hx'
      · subst hx'; exact h (k, lvl) (List.mem_cons_self _ _)
      · exact ih hrest x hx'

/-- Positivity is invariant under reversal of a side. -/
theorem levelsPositive_reverse (ls : List (ℚ × BookLevel)) :
    levelsPositive ls.reverse ↔ levelsPositive ls := by
  constructor <;> intro h x hx
  · exact h x (List.mem_reverse.mpr hx)
  · exact h x (List.mem_reverse.mp hx)

/-- Lemma: `add_order` keeps the book positive when the order quantity is
positive. -/
theorem add_order_positive (b : OrderBook) (o : Order) (hb : b.positive)
    (hq : 0 < o.quantity) : (b.add_order o).positive := by
  obtain ⟨h1, h2⟩ := hb
  cases hside : o.side
  · simp only [OrderBook.add_order, hside, OrderBook.positive]
    exact ⟨mapAddOrder_positive _ _ _ _ _ h1 hq, h2⟩
  · simp only [OrderBook.add_order, hside, OrderBook.positive]
    exact ⟨h1, mapAddOrder_positive _ _ _ _ _ h2 hq⟩

/-- C5 amended: provided the book's resident levels all carry positive
cached volume and the added/matched order has positive quantity, each of
the four operations — `add_order`, `remove_order`,
`execute_market_order`, `execute_limit_order` — leaves every level still
present with `total_volume > 0` (equivalently, drained levels are removed
within the same operation). -/
theorem book_levels_stay_positive (b : OrderBook) (o : Order) (ts : Int)
    (oid : Nat) (side : Side) (price : ℚ) (qty : Nat)
    (hb : b.positive) (hq : 0 < o.quantity) :
    (b.add_order o).positive ∧
    (b.remove_order oid side price qty).positive ∧
    (b.execute_market_order o ts).2.positive ∧
    (b.execute_limit_order o ts).2.positive := by
  obtain ⟨h1, h2⟩ := hb
  refine ⟨add_order_positive b o ⟨h1, h2⟩ hq, ?_, ?_, ?_⟩
  · cases side
    · simp only [OrderBook.remove_order, OrderBook.positive]
      exact ⟨mapRemoveOrder_positive _ _ _ h1, h2⟩
    · simp only [OrderBook.remove_order, OrderBook.positive]
      exact ⟨h1, mapRemoveOrder_positive _ _ _ h2⟩
  · cases hside : o.side
    · simp only [OrderBook.execute_market_order, hside, OrderBook.positive]
      exact ⟨h1, sweepLevels_positive _ _ _ _ h2⟩
    · simp only [OrderBook.execute_market_order, hside, OrderBook.positive]
      refine ⟨?_, h2⟩
      exact (levelsPositive_reverse _).mpr
        (sweepLevels_positive _ _ _ _ ((levelsPositive_reverse b.bids).mpr h1))
  · cases hside : o.side
    · simp only [OrderBook.execute_limit_order, hside]
      split_ifs with hr
      · refine add_order_positive _ _ ⟨h1, sweepLevels_positive _ _ _ _ h2⟩ ?_
        simpa using hr
      · exact ⟨h1, sweepLevels_positive _ _ _ _ h2⟩
    · simp only [OrderBook.execute_limit_order, hside]
      split_ifs with hr
      · refine add_order_positive _ _
          ⟨(levelsPositive_reverse _).mpr
            (sweepLevels_positive _ _ _ _ ((levelsPositive_reverse b.bids).mpr h1)), h2⟩ ?_
        simpa using hr
      · exact ⟨(levelsPositive_reverse _).mpr
          (sweepLevels_positive _ _ _ _ ((levelsPositive_reverse b.bids).mpr h1)), h2⟩

/-- Witness for the C5 amended theorem at the S1 inputs. -/
theorem book_levels_stay_positive_witness :
    s1Book.positive ∧ 0 < s1BuyOrder.quantity ∧
    ((s1Book.add_order s1BuyOrder).positive ∧
     (s1Book.remove_order 1 Side.SELL 100 3).positive ∧
     (s1Book.execute_market_order s1BuyOrder 5).2.positive ∧
     (s1Book.execute_limit_order s1BuyOrder 5).2.positive) :=
  ⟨by decide, by decide,
    book_levels_stay_positive s1Book s1BuyOrder 5 1 Side.SELL 100 3 (by decide) (by decide)⟩

/-! ## C1 amended — what order `run` actually delivers -/

/-- C1 amended: for a tick store holding a single instrument whose stored
series is already non-decreasing in timestamp, the MarketEvent sequence
`run` delivers is non-decreasing; `run` itself contributes no reordering
(it replays the stored order), so this is the only situation in which the
claimed delivery order holds. -/
theorem run_single_sorted_instrument_time_ordered (inst : String)
    (ticks : List MarketDataTick) (h : timeOrdered ticks) :
    timeOrdered (runDelivered [(inst, ticks)]) := by
  unfold runDelivered get_all_ticks
  simp only [List.map_cons, List.map_nil, List.foldr_cons, List.foldr_nil, List.append_nil]
  unfold timeOrdered at h ⊢
  rw [List.chain'_map]
  simpa [withInstrument] using h

/-- Witness for the C1 amended theorem on a concrete sorted store. -/
theorem run_single_sorted_instrument_time_ordered_witness :
    timeOrdered [{ timestamp := 1, instrument := "" }, { timestamp := 3, instrument := "" }] ∧
    timeOrdered (runDelivered c1SortedStore) :=
  ⟨by simp [timeOrdered, List.chain'_cons, List.chain'_singleton],
   run_single_sorted_instrument_time_ordered "A"
     [{ timestamp := 1, instrument := "" }, { timestamp := 3, instrument := "" }]
     (by simp [timeOrdered, List.chain'_cons, List.chain'_singleton])⟩

/-! ## C9 — heap development for `SimClock::advance_to`

Generic list lemmas about `set`, `getD`, `eraseIdx`, then the standard
binary-heap facts for the embedded `__push_heap` / `__adjust_heap`
algorithms: they permute the underlying array (modulo the replaced
element) and preserve the heap invariant, the root of a heap is minimal,
and therefore `process_scheduled_events` splits the queue into exactly
the due and the not-yet-due events. -/

theorem getD_set_eq {α : Type} (l : List α) (i : Nat) (v d : α) (h : i < l.length) :
    (l.set i v).getD i d = v := by
  induction l generalizing i with
  | nil => simp at h
  | cons a t ih =>
    cases i with
    | zero => rfl
    | succ n => simpa using ih n (by simpa using h)

theorem getD_set_ne {α : Type} (l : List α) (i j : Nat) (v d : α) (hij : i ≠ j) :
    (l.set i v).getD j d = l.getD j d := by
  induction l generalizing i j with
  | nil => simp
  | cons a t ih =>
    cases i with
    | zero =>
      cases j with
      | zero => exact absurd rfl hij
      | succ m => simp
    | succ n =>
      cases j with
      | zero => simp
      | succ m => simpa using ih n m (fun h => hij (by rw [h]))

theorem getD_append_left {α : Type} (l l' : List α) (i : Nat) (d : α)
    (h : i < l.length) : (l ++ l').getD i d = l.getD i d := by
  induction l generalizing i with
  | nil => simp at h
  | cons a t ih =>
    cases i with
    | zero => rfl
    | succ n => simpa using ih n (by simpa using h)

theorem getD_take {α : Type} (l : List α) (k i : Nat) (d : α) (h : i < k) :
    (l.take k).getD i d = l.getD i d := by
  induction l generalizing k i with
  | nil => simp
  | cons a t ih =>
    cases k with
    | zero => omega
    | succ m =>
      cases i with
      | zero => rfl
      | succ n => simpa using ih m n (by omega)

theorem getD_cons_self {α : Type} (a : α) (t : List α) (d : α) :
    (a :: t).getD 0 d = a := rfl

/-- A list is a permutation of its `j`-th element consed on its own
`eraseIdx j`. -/
theorem cons_getD_eraseIdx_perm {α : Type} (l : List α) (j : Nat) (d : α)
    (h : j < l.length) : (l.getD j d :: l.eraseIdx j).Perm l := by
  induction l generalizing j with
  | nil => simp at h
  | cons a t ih =>
    cases j with
    | zero => simp
    | succ m =>
      have h1 := ih m (by simpa using h)
      simp only [List.getD_cons_succ, List.eraseIdx_cons_succ]
      exact (List.Perm.swap a (t.getD m d) _).trans (List.Perm.cons a h1)

/-- Lemma: `set` viewed as a permutation with the displaced element dropped. -/
theorem set_perm {α : Type} (l : List α) (i : Nat) (v : α) (h : i < l.length) :
    (l.set i v).Perm (v :: l.eraseIdx i) := by
  induction l generalizing i with
  | nil => simp at h
  | cons a t ih =>
    cases i with
    | zero => simp
    | succ n =>
      have h1 := ih n (by simpa using h)
      simp only [List.set_cons_succ, List.eraseIdx_cons_succ]
      exact (List.Perm.cons a h1).trans (List.Perm.swap v a _)

/-- Copying the `j`-th element over the (garbage) slot `i` and erasing
index `j` is, as a multiset, the same as erasing index `i`. -/
theorem set_getD_eraseIdx_perm {α : Type} (l : List α) (i j : Nat) (d : α)
    (hij : i ≠ j) (hi : i < l.length) (hj : j < l.length) :
    ((l.set i (l.getD j d)).eraseIdx j).Perm (l.eraseIdx i) := by
  induction l generalizing i j with
  | nil => simp at hi
  | cons a t ih =>
    cases i with
    | zero =>
      cases j with
      | zero => exact absurd rfl hij
      | succ m =>
        simp only [List.getD_cons_succ, List.set_cons_zero, List.eraseIdx_cons_succ,
          List.eraseIdx_cons_zero]
        exact cons_getD_eraseIdx_perm t m d (by simpa using hj)
    | succ n =>
      cases j with
      | zero =>
        simp only [List.getD_cons_zero, List.set_cons_succ, List.eraseIdx_cons_zero,
          List.eraseIdx_cons_succ]
        exact set_perm t n a (by simpa using hi)
      | succ m =>
        simp only [List.getD_cons_succ, List.set_cons_succ, List.eraseIdx_cons_succ]
        exact List.Perm.cons a (ih n m (fun h => hij (by rw [h])) (by simpa using hi)
          (by simpa using hj))

theorem pushHeapLoop_length (v : ScheduledEvent) :
    ∀ (fuel : Nat) (l : List ScheduledEvent) (hole : Nat),
      (pushHeapLoop v fuel l hole).length = l.length := by
  intro fuel
  induction fuel with
  | zero => intro l hole; simp [pushHeapLoop]
  | succ n ih =>
    intro l hole
    simp only [pushHeapLoop]
    split_ifs <;> simp [ih]

theorem adjustHeap_length (v : ScheduledEvent) (len : Nat) :
    ∀ (fuel : Nat) (l : List ScheduledEvent) (hole : Nat),
      (adjustHeap v len fuel l hole).length = l.length := by
  intro fuel
  induction fuel with
  | zero => intro l hole; simp [adjustHeap]
  | succ n ih =>
    intro l hole
    simp only [adjustHeap]
    split_ifs <;> simp [ih, pushHeapLoop_length]

theorem pqPop_length (l : List ScheduledEvent) : (pqPop l).length = l.length - 1 := by
  unfold pqPop
  split_ifs with h
  · simp; omega
  · rw [adjustHeap_length, List.length_take]
    omega

/-- Lemma: `__push_heap` is a permutation: the result holds `v` plus everything
but the (garbage) hole slot. -/
theorem pushHeapLoop_perm (v : ScheduledEvent) :
    ∀ (fuel : Nat) (l : List ScheduledEvent) (hole : Nat),
      hole < fuel → hole < l.length →
      (pushHeapLoop v fuel l hole).Perm (v :: l.eraseIdx hole) := by
  intro fuel
  induction fuel with
  | zero => intro l hole hf; omega
  | succ n ih =>
    intro l hole hf hl
    simp only [pushHeapLoop]
    split_ifs with h0 hgt
    · subst h0
      exact set_perm l 0 v hl
    · have hp : parentIdx hole < hole := by unfold parentIdx; omega
      refine (ih (l.set hole (l.getD (parentIdx hole) default)) (parentIdx hole)
          (by omega) (by simpa using Nat.lt_trans hp hl)).trans ?_
      exact List.Perm.cons v
        (set_getD_eraseIdx_perm l hole (parentIdx hole) default
          (by omega) hl (Nat.lt_trans hp hl))
    · exact set_perm l hole v hl

/-- Lemma: `__adjust_heap` is a permutation: the result holds `v` plus everything
but the (garbage) hole slot.  (The fuel-exhausted fallback `l.set hole v`
satisfies the same specification, so no fuel bound is needed here.) -/
theorem adjustHeap_perm (v : ScheduledEvent) :
    ∀ (fuel : Nat) (len : Nat) (l : List ScheduledEvent) (hole : Nat),
      len = l.length → hole < len →
      (adjustHeap v len fuel l hole).Perm (v :: l.eraseIdx hole) := by
  intro fuel
  induction fuel with
  | zero =>
    intro len l hole hlen hh
    simpa [adjustHeap] using set_perm l hole v (hlen ▸ hh)
  | succ n ih =>
    intro len l hole hlen hh
    simp only [adjustHeap]
    by_cases hcas : hole < (len - 1) / 2
    · rw [if_pos hcas]
      have key : ∀ sc, hole < sc → sc < len →
          (adjustHeap v len n (l.set hole (l.getD sc default)) sc).Perm
            (v :: l.eraseIdx hole) := by
        intro sc h1 h2
        refine (ih len _ sc (by simp [hlen]) h2).trans ?_
        exact List.Perm.cons v
          (set_getD_eraseIdx_perm l hole sc default (by omega) (hlen ▸ hh) (hlen ▸ h2))
      split_ifs with hgt
      · exact key (2 * (hole + 1) - 1) (by omega) (by omega)
      · exact key (2 * (hole + 1)) (by omega) (by omega)
    · rw [if_neg hcas]
      by_cases heven : len % 2 = 0 ∧ hole = (len - 2) / 2
      · rw [if_pos heven]
        obtain ⟨he, hh2⟩ := heven
        have hc : 2 * (hole + 1) - 1 < len := by omega
        refine (pushHeapLoop_perm v _ _ _ (by omega) (by
            rw [List.length_set, ← hlen]; exact hc)).trans ?_
        exact List.Perm.cons v
          (set_getD_eraseIdx_perm l hole (2 * (hole + 1) - 1) default (by omega)
            (hlen ▸ hh) (hlen ▸ hc))
      · rw [if_neg heven]
        exact pushHeapLoop_perm v _ _ _ (by omega) (hlen ▸ hh)

/-- Lemma: `priority_queue::pop` pops exactly the root. -/
theorem pqPop_perm (l : List ScheduledEvent) (hne : l ≠ []) :
    (l.getD 0 default :: pqPop l).Perm l := by
  unfold pqPop
  split_ifs with h
  · match l, hne, h with
    | [a], _, _ => simp
  · have hlen : 2 ≤ l.length := by
      cases l with
      | nil => exact absurd rfl hne
      | cons a t =>
        cases t with
        | nil => simp at h
        | cons b u => simp only [List.length_cons]; omega
    have htake : (l.take (l.length - 1)).length = l.length - 1 := by
      rw [List.length_take]; omega
    have hperm := adjustHeap_perm (l.getD (l.length - 1) default) (l.length - 1)
      (l.length - 1) (l.take (l.length - 1)) 0 htake.symm (by omega)
    refine (List.Perm.cons _ hperm).trans ?_
    -- getD 0 :: v :: (take (n-1) l).eraseIdx 0  ~  l
    have hlt : l.length - 1 < l.length := by omega
    have hdecomp : l = l.take (l.length - 1) ++ [l.getD (l.length - 1) default] := by
      conv_lhs => rw [← List.take_append_drop (l.length - 1) l]
      congr 1
      rw [List.getD_eq_getElem l default hlt, List.drop_eq_getElem_cons hlt]
      have : l.drop (l.length - 1 + 1) = [] := List.drop_eq_nil_of_le (by omega)
      rw [this]
    have hhead : l.take (l.length - 1) =
        l.getD 0 default :: (l.take (l.length - 1)).eraseIdx 0 := by
      cases hl : l.take (l.length - 1) with
      | nil =>
        rw [hl] at htake
        simp at htake
        omega
      | cons a t =>
        have h2 := getD_take l (l.length - 1) 0 default (by omega)
        rw [hl] at h2
        have ha : a = l.getD 0 default := by simpa using h2
        simp [ha]
    calc (l.getD 0 default :: l.getD (l.length - 1) default ::
            (l.take (l.length - 1)).eraseIdx 0).Perm
          (l.getD 0 default :: ((l.take (l.length - 1)).eraseIdx 0 ++
            [l.getD (l.length - 1) default])) :=
            List.Perm.cons _ (List.perm_append_singleton _ _).symm
      _ = (l.getD 0 default :: (l.take (l.length - 1)).eraseIdx 0) ++
            [l.getD (l.length - 1) default] := rfl
      _ = l.take (l.length - 1) ++ [l.getD (l.length - 1) default] := by rw [← hhead]
      _ = l := hdecomp.symm

theorem parentIdx_lt (i : Nat) (h : 0 < i) : parentIdx i < i := by
  unfold parentIdx; omega

/-- In a heap the root is a minimum. -/
theorem isHeap_root_le (l : List ScheduledEvent) (hh : IsHeap l) :
    ∀ i, i < l.length →
      (l.getD 0 default).execution_time ≤ (l.getD i default).execution_time := by
  intro i
  induction i using Nat.strong_induction_on with
  | _ i ih =>
    intro hi
    rcases Nat.eq_zero_or_pos i with h0 | hpos
    · subst h0; exact le_refl _
    · have hp := hh i hi hpos
      have hplt : parentIdx i < i := parentIdx_lt i hpos
      exact le_trans (ih (parentIdx i) hplt (Nat.lt_trans hplt hi)) hp

/-- The sift-up loop `__push_heap` produces a heap.  The hypotheses say:
`l` is a heap everywhere except at the (garbage) `hole` slot, the
children of the hole are `≥ v`, and (when the hole is not the root) the
hole's parent is `≤` the hole's children. -/
theorem pushHeapLoop_isHeap (v : ScheduledEvent) :
    ∀ (fuel : Nat) (l : List ScheduledEvent) (hole : Nat),
      hole < fuel → hole < l.length →
      (∀ c, c < l.length → 0 < c → c ≠ hole → parentIdx c ≠ hole →
        (l.getD (parentIdx c) default).execution_time ≤
          (l.getD c default).execution_time) →
      (∀ c, c < l.length → 0 < c → parentIdx c = hole →
        v.execution_time ≤ (l.getD c default).execution_time) →
      (∀ c, c < l.length → 0 < c → parentIdx c = hole → 0 < hole →
        (l.getD (parentIdx hole) default).execution_time ≤
          (l.getD c default).execution_time) →
      IsHeap (pushHeapLoop v fuel l hole) := by
  intro fuel
  induction fuel with
  | zero => intro l hole hf; omega
  | succ n ih =>
    intro l hole hf hl ha hb hc
    simp only [pushHeapLoop]
    split_ifs with h0 hgt
    · -- hole is the root: place v there
      subst h0
      intro c hclen hcpos
      rw [List.length_set] at hclen
      by_cases hpc : parentIdx c = 0
      · rw [hpc, getD_set_eq l 0 v default hl,
          getD_set_ne l 0 c v default (by omega)]
        exact hb c hclen hcpos hpc
      · rw [getD_set_ne l 0 (parentIdx c) v default (fun h => hpc h.symm),
          getD_set_ne l 0 c v default (by omega)]
        exact ha c hclen hcpos (by omega) hpc
    · -- the parent beats v: move the parent down, hole moves up
      have hhpos : 0 < hole := Nat.pos_of_ne_zero h0
      have hplt : parentIdx hole < hole := parentIdx_lt hole hhpos
      have hgt' : v.execution_time < (l.getD (parentIdx hole) default).execution_time := by
        simpa [seGT] using hgt
      apply ih (l.set hole (l.getD (parentIdx hole) default)) (parentIdx hole)
        (by omega) (by rw [List.length_set]; omega)
      · -- heap except at the new hole
        intro c hclen hcpos hcne hpcne
        rw [List.length_set] at hclen
        by_cases hchole : c = hole
        · exact absurd (by rw [hchole]) hpcne
        · by_cases hpc : parentIdx c = hole
          · rw [hpc, getD_set_eq l hole _ default hl,
              getD_set_ne l hole c _ default (fun h => hchole h.symm)]
            exact hc c hclen hcpos hpc hhpos
          · rw [getD_set_ne l hole (parentIdx c) _ default (fun h => hpc h.symm),
              getD_set_ne l hole c _ default (fun h => hchole h.symm)]
            exact ha c hclen hcpos hchole hpc
      · -- children of the new hole are ≥ v
        intro c hclen hcpos hpc
        rw [List.length_set] at hclen
        by_cases hchole : c = hole
        · rw [hchole, getD_set_eq l hole _ default hl]
          exact le_of_lt hgt'
        · rw [getD_set_ne l hole c _ default (fun h => hchole h.symm)]
          have h1 := ha c hclen hcpos hchole (by rw [hpc]; omega)
          rw [hpc] at h1
          exact le_trans (le_of_lt hgt') h1
      · -- grandparent of the old hole vs children of the new hole
        intro c hclen hcpos hpc hppos
        rw [List.length_set] at hclen
        have hpplt : parentIdx (parentIdx hole) < parentIdx hole := parentIdx_lt _ hppos
        rw [getD_set_ne l hole (parentIdx (parentIdx hole)) _ default (by omega)]
        have hpa := ha (parentIdx hole) (Nat.lt_trans hplt hl) hppos (by omega) (by omega)
        by_cases hchole : c = hole
        · rw [hchole, getD_set_eq l hole _ default hl]
          exact hpa
        · rw [getD_set_ne l hole c _ default (fun h => hchole h.symm)]
          have h1 := ha c hclen hcpos hchole (by rw [hpc]; omega)
          rw [hpc] at h1
          exact le_trans hpa h1
    · -- the parent does not beat v: place v in the hole
      have hhpos : 0 < hole := Nat.pos_of_ne_zero h0
      have hplt : parentIdx hole < hole := parentIdx_lt hole hhpos
      have hle : (l.getD (parentIdx hole) default).execution_time ≤ v.execution_time := by
        simpa [seGT] using hgt
      intro c hclen hcpos
      rw [List.length_set] at hclen
      by_cases hchole : c = hole
      · rw [hchole, getD_set_ne l hole (parentIdx hole) v default (by omega),
          getD_set_eq l hole v default hl]
        exact hle
      · by_cases hpc : parentIdx c = hole
        · rw [hpc, getD_set_eq l hole v default hl,
            getD_set_ne l hole c v default (fun h => hchole h.symm)]
          exact hb c hclen hcpos hpc
        · rw [getD_set_ne l hole (parentIdx c) v default (fun h => hpc h.symm),
            getD_set_ne l hole c v default (fun h => hchole h.symm)]
          exact ha c hclen hcpos hchole hpc

/-- The hole cascade `__adjust_heap` produces a heap.  Hypotheses: `l` is
a heap except at the `hole` slot, and (when the hole is not the root) the
hole's parent is `≤` the hole's children. -/
theorem adjustHeap_isHeap (v : ScheduledEvent) :
    ∀ (fuel len : Nat) (l : List ScheduledEvent) (hole : Nat),
      len = l.length → hole < len → len - hole ≤ fuel →
      (∀ c, c < len → 0 < c → c ≠ hole → parentIdx c ≠ hole →
        (l.getD (parentIdx c) default).execution_time ≤
          (l.getD c default).execution_time) →
      (∀ c, c < len → 0 < c → parentIdx c = hole → 0 < hole →
        (l.getD (parentIdx hole) default).execution_time ≤
          (l.getD c default).execution_time) →
      IsHeap (adjustHeap v len fuel l hole) := by
  intro fuel
  induction fuel with
  | zero => intro len l hole hlen hh hf; omega
  | succ n ih =>
    intro len l hole hlen hh hf hA hD
    simp only [adjustHeap]
    by_cases hcas : hole < (len - 1) / 2
    · rw [if_pos hcas]
      have hsc1lt : 2 * (hole + 1) < len := by omega
      have hsc0lt : 2 * (hole + 1) - 1 < len := by omega
      have key : ∀ sc, (sc = 2 * (hole + 1) - 1 ∨ sc = 2 * (hole + 1)) →
          (∀ c, c < len → 0 < c → parentIdx c = hole →
            (l.getD sc default).execution_time ≤ (l.getD c default).execution_time) →
          IsHeap (adjustHeap v len n (l.set hole (l.getD sc default)) sc) := by
        intro sc hscb hmin
        have hscgt : hole < sc := by omega
        have hsclt : sc < len := by omega
        have hpsc : parentIdx sc = hole := by unfold parentIdx; omega
        apply ih len (l.set hole (l.getD sc default)) sc
          (by rw [List.length_set, ← hlen]) hsclt (by omega)
        · -- (A) for the new hole sc
          intro c hclen hcpos hcne hpcne
          by_cases hchole : c = hole
          · have hhpos : 0 < hole := hchole ▸ hcpos
            have hphlt : parentIdx hole < hole := parentIdx_lt hole hhpos
            rw [hchole, getD_set_ne l hole (parentIdx hole) _ default (by omega),
              getD_set_eq l hole _ default (hlen ▸ hh)]
            exact hD sc hsclt (by omega) hpsc hhpos
          · by_cases hpc : parentIdx c = hole
            · rw [hpc, getD_set_eq l hole _ default (hlen ▸ hh),
                getD_set_ne l hole c _ default (fun h => hchole h.symm)]
              exact hmin c hclen hcpos hpc
            · rw [getD_set_ne l hole (parentIdx c) _ default (fun h => hpc h.symm),
                getD_set_ne l hole c _ default (fun h => hchole h.symm)]
              exact hA c hclen hcpos hchole hpc
        · -- (D) for the new hole sc
          intro c hclen hcpos hpc hscpos
          have hcgt : sc < c := by
            unfold parentIdx at hpc; omega
          rw [hpsc, getD_set_eq l hole _ default (hlen ▸ hh),
            getD_set_ne l hole c _ default (by omega)]
          have h1 := hA c hclen hcpos (by omega) (by rw [hpc]; omega)
          rw [hpc] at h1
          exact h1
      split_ifs with hgt
      · apply key (2 * (hole + 1) - 1) (Or.inl rfl)
        intro c hclen hcpos hpc
        have hcc : c = 2 * (hole + 1) - 1 ∨ c = 2 * (hole + 1) := by
          unfold parentIdx at hpc; omega
        have hgt' : (l.getD (2 * (hole + 1) - 1) default).execution_time <
            (l.getD (2 * (hole + 1)) default).execution_time := by
          simpa [seGT] using hgt
        rcases hcc with h | h
        · rw [h]
        · rw [h]; exact le_of_lt hgt'
      · apply key (2 * (hole + 1)) (Or.inr rfl)
        intro c hclen hcpos hpc
        have hcc : c = 2 * (hole + 1) - 1 ∨ c = 2 * (hole + 1) := by
          unfold parentIdx at hpc; omega
        have hle' : (l.getD (2 * (hole + 1)) default).execution_time ≤
            (l.getD (2 * (hole + 1) - 1) default).execution_time := by
          simpa [seGT] using hgt
        rcases hcc with h | h
        · rw [h]; exact hle'
        · rw [h]
    · rw [if_neg hcas]
      by_cases heven : len % 2 = 0 ∧ hole = (len - 2) / 2
      · rw [if_pos heven]
        obtain ⟨he, hh2⟩ := heven
        have hc0 : 2 * (hole + 1) - 1 = len - 1 := by omega
        have hc0lt : 2 * (hole + 1) - 1 < len := by omega
        have hc0gt : hole < 2 * (hole + 1) - 1 := by omega
        have hpc0 : parentIdx (2 * (hole + 1) - 1) = hole := by unfold parentIdx; omega
        apply pushHeapLoop_isHeap v (2 * (hole + 1) - 1 + 1)
          (l.set hole (l.getD (2 * (hole + 1) - 1) default)) (2 * (hole + 1) - 1)
          (by omega) (by rw [List.length_set]; omega)
        · intro c hclen hcpos hcne hpcne
          rw [List.length_set, ← hlen] at hclen
          by_cases hchole : c = hole
          · have hhpos : 0 < hole := hchole ▸ hcpos
            have hphlt : parentIdx hole < hole := parentIdx_lt hole hhpos
            rw [hchole, getD_set_ne l hole (parentIdx hole) _ default (by omega),
              getD_set_eq l hole _ default (hlen ▸ hh)]
            exact hD (2 * (hole + 1) - 1) hc0lt (by omega) hpc0 hhpos
          · by_cases hpc : parentIdx c = hole
            · exfalso
              unfold parentIdx at hpc
              omega
            · rw [getD_set_ne l hole (parentIdx c) _ default (fun h => hpc h.symm),
                getD_set_ne l hole c _ default (fun h => hchole h.symm)]
              exact hA c hclen hcpos hchole hpc
        · intro c hclen hcpos hpc
          exfalso
          rw [List.length_set, ← hlen] at hclen
          unfold parentIdx at hpc
          omega
        · intro c hclen hcpos hpc _
          exfalso
          rw [List.length_set, ← hlen] at hclen
          unfold parentIdx at hpc
          omega
      · rw [if_neg heven]
        have hchildless : ∀ c, c < len → 0 < c → parentIdx c ≠ hole := by
          intro c hclen hcpos hpc
          unfold parentIdx at hpc
          rcases Nat.even_or_odd len with hev | hod
          · have he2 : len % 2 = 0 := Nat.even_iff.mp hev
            have hne : hole ≠ (len - 2) / 2 := fun h => heven ⟨he2, h⟩
            omega
          · have ho2 : len % 2 = 1 := Nat.odd_iff.mp hod
            omega
        apply pushHeapLoop_isHeap v (hole + 1) l hole (by omega) (hlen ▸ hh)
        · intro c hclen hcpos hcne hpcne
          exact hA c (hlen ▸ hclen) hcpos hcne hpcne
        · intro c hclen hcpos hpc
          exact absurd hpc (hchildless c (hlen ▸ hclen) hcpos)
        · intro c hclen hcpos hpc _
          exact absurd hpc (hchildless c (hlen ▸ hclen) hcpos)

/-- Lemma: `priority_queue::push` preserves the heap invariant. -/
theorem pqPush_isHeap (l : List ScheduledEvent) (hh : IsHeap l) (v : ScheduledEvent) :
    IsHeap (pqPush l v) := by
  unfold pqPush
  apply pushHeapLoop_isHeap v (l.length + 1) (l ++ [v]) l.length (by omega) (by simp)
  · intro c hclen hcpos hcne hpcne
    simp only [List.length_append, List.length_singleton] at hclen
    have hc : c < l.length := by omega
    have hp : parentIdx c < c := parentIdx_lt c hcpos
    rw [getD_append_left l [v] c default hc,
      getD_append_left l [v] (parentIdx c) default (by omega)]
    exact hh c hc hcpos
  · intro c hclen hcpos hpc
    exfalso
    simp only [List.length_append, List.length_singleton] at hclen
    unfold parentIdx at hpc
    omega
  · intro c hclen hcpos hpc _
    exfalso
    simp only [List.length_append, List.length_singleton] at hclen
    unfold parentIdx at hpc
    omega

/-- Lemma: `priority_queue::pop` preserves the heap invariant. -/
theorem pqPop_isHeap (l : List ScheduledEvent) (hh : IsHeap l) : IsHeap (pqPop l) := by
  unfold pqPop
  split_ifs with h
  · intro i hi
    simp at hi
  · have htake : (l.take (l.length - 1)).length = l.length - 1 := by
      rw [List.length_take]; omega
    apply adjustHeap_isHeap _ (l.length - 1) (l.length - 1) _ 0 htake.symm (by omega)
      (by omega)
    · intro c hclen hcpos hcne hpcne
      have hplt : parentIdx c < c := parentIdx_lt c hcpos
      rw [getD_take l (l.length - 1) c default hclen,
        getD_take l (l.length - 1) (parentIdx c) default (by omega)]
      exact hh c (by omega) hcpos
    · intro c hclen hcpos hpc h0
      omega

/-- The processing loop splits a heap into the due events (in firing
order) and the not-yet-due remainder. -/
theorem processEventsFuel_spec :
    ∀ (fuel : Nat) (cur : Int) (l : List ScheduledEvent),
      l.length ≤ fuel → IsHeap l →
      ((processEventsFuel fuel cur l).1 ++ (processEventsFuel fuel cur l).2).Perm l ∧
      (∀ e ∈ (processEventsFuel fuel cur l).1, e.execution_time ≤ cur) ∧
      (∀ e ∈ (processEventsFuel fuel cur l).2, cur < e.execution_time) := by
  intro fuel
  induction fuel with
  | zero =>
    intro cur l hf hh
    have hnil : l = [] := List.eq_nil_of_length_eq_zero (by omega)
    subst hnil
    simp [processEventsFuel]
  | succ n ih =>
    intro cur l hf hh
    cases l with
    | nil => simp [processEventsFuel]
    | cons e rest =>
      simp only [processEventsFuel]
      split_ifs with hle
      · have hpop : IsHeap (pqPop (e :: rest)) := pqPop_isHeap _ hh
        have hlen : (pqPop (e :: rest)).length ≤ n := by
          rw [pqPop_length]
          simp only [List.length_cons]
          simp only [List.length_cons] at hf
          omega
        obtain ⟨ihp, ihf, ihr⟩ := ih cur (pqPop (e :: rest)) hlen hpop
        refine ⟨?_, ?_, ihr⟩
        · have h2 : ((e :: rest).getD 0 default :: pqPop (e :: rest)).Perm (e :: rest) :=
            pqPop_perm _ (by simp)
          rw [getD_cons_self] at h2
          exact (List.Perm.cons e ihp).trans h2
        · intro x hx
          rcases List.mem_cons.mp hx with hx' | hx'
          · subst hx'; exact hle
          · exact ihf x hx'
      · refine ⟨List.Perm.refl _, by simp, ?_⟩
        intro x hx
        obtain ⟨i, hi, hx'⟩ := List.mem_iff_getElem.mp hx
        have hroot := isHeap_root_le _ hh i hi
        rw [List.getD_eq_getElem _ default hi, hx'] at hroot
        rw [getD_cons_self] at hroot
        omega

/-- C9: on a clock whose scheduled-event array satisfies the heap
invariant `std::priority_queue` maintains, `advance_to t` with
`t < now()` fails (`Except.error`, mirroring the C++ throw) and leaves
the clock — time and heap — untouched with nothing fired; with
`t ≥ now()` it succeeds, sets the time to `t`, and fires exactly the
scheduled callbacks whose due time is `≤ t` (the remainder, all due
strictly after `t`, stays queued). -/
theorem advance_to_spec (s : SimClock) (t : Int) (hh : IsHeap s.scheduled_events) :
    (t < s.current_time →
      s.advance_to t = (Except.error "Cannot advance clock backwards", s)) ∧
    (s.current_time ≤ t →
      ∃ fired rest,
        s.advance_to t = (Except.ok fired, { current_time := t, scheduled_events := rest }) ∧
        (fired ++ rest).Perm s.scheduled_events ∧
        (∀ e ∈ fired, e.execution_time ≤ t) ∧
        (∀ e ∈ rest, t < e.execution_time)) := by
  constructor
  · intro hlt
    simp [SimClock.advance_to, hlt]
  · intro hge
    have hnlt : ¬ t < s.current_time := not_lt.mpr hge
    obtain ⟨h1, h2, h3⟩ := processEventsFuel_spec s.scheduled_events.length t
      s.scheduled_events le_rfl hh
    exact ⟨(process_scheduled_events t s.scheduled_events).1,
      (process_scheduled_events t s.scheduled_events).2,
      by simp [SimClock.advance_to, hnlt], h1, h2, h3⟩

/-- Witness for C9 on a concrete clock: time 0, heap [due 5, due 9],
advanced to 7 (which fires the first event only). -/
theorem advance_to_spec_witness :
    IsHeap [⟨5, 0⟩, ⟨9, 1⟩] ∧
    (((7 : Int) < (0 : Int) →
      (SimClock.advance_to ⟨0, [⟨5, 0⟩, ⟨9, 1⟩]⟩ 7) =
        (Except.error "Cannot advance clock backwards", ⟨0, [⟨5, 0⟩, ⟨9, 1⟩]⟩)) ∧
     ((0 : Int) ≤ (7 : Int) →
      ∃ fired rest,
        (SimClock.advance_to ⟨0, [⟨5, 0⟩, ⟨9, 1⟩]⟩ 7) =
          (Except.ok fired, { current_time := 7, scheduled_events := rest }) ∧
        (fired ++ rest).Perm [⟨5, 0⟩, ⟨9, 1⟩] ∧
        (∀ e ∈ fired, e.execution_time ≤ 7) ∧
        (∀ e ∈ rest, 7 < e.execution_time))) :=
  ⟨by decide, advance_to_spec ⟨0, [⟨5, 0⟩, ⟨9, 1⟩]⟩ 7 (by decide)⟩

end Backtest
